import Mathlib

/-!
Shallow embedding of the on-demand tool-loading agent system
(skills registry, conversational agent tool-set merge, router parsing,
orchestrator session protocol), translated from the TypeScript source.

JavaScript runtime structures are modelled explicitly:
`Map` as an insertion-ordered association list (overwrite keeps position),
`Set` as an insertion-ordered duplicate-free list, exceptions as `Except`,
the external language-model collaborator as a function parameter, and
`JSON.parse` as an executable JSON decoder.
-/

/-- A callable tool: `DynamicStructuredTool` restricted to the fields the core
logic inspects (the structural schema and async handler are external
collaborators that never touch core state). -/
structure Tool where
  name : String
  description : String
deriving DecidableEq

/-- Skill metadata (`SkillMetadata`): only `name` and `description` are
required by the source interface. -/
structure SkillMetadata where
  name : String
  description : String
deriving DecidableEq

/-- A skill: metadata plus its tool list (`Skill` interface). The optional
`initialize`/`cleanup` hooks are external effects with no influence on
registry state, so they carry no data here. -/
structure Skill where
  metadata : SkillMetadata
  tools : List Tool
deriving DecidableEq

/-- JS `Map.set`: overwriting an existing key keeps its insertion position,
a new key is appended. -/
def mapSet (m : List (String × Skill)) (k : String) (v : Skill) :
    List (String × Skill) :=
  if m.any (fun p => p.1 = k) then
    m.map (fun p => if p.1 = k then (k, v) else p)
  else m ++ [(k, v)]

/-- JS `Map.get`. -/
def mapGet (m : List (String × Skill)) (k : String) : Option Skill :=
  (m.find? (fun p => p.1 = k)).map Prod.snd

/-- JS `Set.add`: appends iff the element is not yet a member. -/
def setAdd (s : List String) (x : String) : List String :=
  if x ∈ s then s else s ++ [x]

/-- `SkillsRegistry` state: the skills map and the two lifecycle sets. -/
structure SkillsRegistry where
  skills : List (String × Skill)
  initialized : List String
  loadedSkills : List String
deriving DecidableEq

/-- A freshly constructed registry. -/
def SkillsRegistry.new : SkillsRegistry := ⟨[], [], []⟩

/-- `register(skill)`: `this.skills.set(name, skill)` (overwrite allowed,
logged as a warning — logging is not modelled). -/
def SkillsRegistry.register (r : SkillsRegistry) (skill : Skill) :
    SkillsRegistry :=
  { r with skills := mapSet r.skills skill.metadata.name skill }

/-- `registerAll(skills)`: `register` applied to each skill in order. -/
def SkillsRegistry.registerAll (r : SkillsRegistry) (skills : List Skill) :
    SkillsRegistry :=
  skills.foldl SkillsRegistry.register r

/-- `get(name)`. -/
def SkillsRegistry.get (r : SkillsRegistry) (name : String) : Option Skill :=
  mapGet r.skills name

/-- `getNames()`: `Array.from(this.skills.keys())`. -/
def SkillsRegistry.getNames (r : SkillsRegistry) : List String :=
  r.skills.map Prod.fst

/-- `getAllMetadata()`: metadata of each registered skill, map order. -/
def SkillsRegistry.getAllMetadata (r : SkillsRegistry) : List SkillMetadata :=
  r.skills.map (fun p => p.2.metadata)

/-- `loadSkill(name)`: `null` when the name is unknown or already loaded this
session; otherwise marks the skill loaded and returns its tools.  Returned as
(result, updated registry state). -/
def SkillsRegistry.loadSkill (r : SkillsRegistry) (name : String) :
    Option (List Tool) × SkillsRegistry :=
  match r.get name with
  | none => (none, r)
  | some skill =>
    if name ∈ r.loadedSkills then (none, r)
    else (some skill.tools, { r with loadedSkills := setAdd r.loadedSkills name })

/-- `isSkillLoaded(name)`. -/
def SkillsRegistry.isSkillLoaded (r : SkillsRegistry) (name : String) : Bool :=
  r.loadedSkills.contains name

/-- `getLoadedSkillNames()`: `Array.from(this.loadedSkills)`, insertion order. -/
def SkillsRegistry.getLoadedSkillNames (r : SkillsRegistry) : List String :=
  r.loadedSkills

/-- `initializeSkill(name)`: throws when the name is unregistered, is a no-op
when already initialized, otherwise runs the (external, effect-only)
`initialize` hook and records the name. -/
def SkillsRegistry.initializeSkill (r : SkillsRegistry) (name : String) :
    Except String SkillsRegistry :=
  match r.get name with
  | none => .error ("Skill \"" ++ name ++ "\" not found")
  | some _ =>
    if name ∈ r.initialized then .ok r
    else .ok { r with initialized := setAdd r.initialized name }

/-- `initializeAll()`: `initializeSkill` for every key of the skills map (the
map keys are not mutated by `initializeSkill`, so iterating the pre-call key
list is faithful). -/
def SkillsRegistry.initializeAll (r : SkillsRegistry) :
    Except String SkillsRegistry :=
  r.getNames.foldlM (fun acc n => acc.initializeSkill n) r

/-- `resetLoadedSkills()`: clears `loadedSkills` only. -/
def SkillsRegistry.resetLoadedSkills (r : SkillsRegistry) : SkillsRegistry :=
  { r with loadedSkills := [] }

/-- Chat message role. -/
inductive Role where
  | system
  | user
  | assistant
deriving DecidableEq

/-- A chat message (`SystemMessage` / `HumanMessage` / `AIMessage`). -/
structure Message where
  role : Role
  content : String
deriving DecidableEq

/-- One content block of a structured LM response: a plain string, an object
with a string `text` field, or anything else. -/
inductive ContentBlock where
  | str (s : String)
  | textObj (text : String)
  | other
deriving DecidableEq

/-- The `content` of a message returned by the executable agent: a string, an
array of content blocks, or some other shape. -/
inductive MsgContent where
  | str (s : String)
  | blocks (l : List ContentBlock)
  | other
deriving DecidableEq

/-- A message of the agent result's `messages` array: whether it is an
`AIMessage`, whether a `content` field is present, and that content. -/
structure ResultMessage where
  isAI : Bool
  hasContent : Bool
  content : MsgContent
deriving DecidableEq

/-- Text extracted from one content block in the array branch of `run`:
strings and `text`-carrying objects contribute their text, anything else
contributes the empty string. -/
def blockText : ContentBlock → String
  | .str s => s
  | .textObj t => t
  | .other => ""

/-- Output extraction of `MainAgent.run` (source lines 88–120): look at the
last message of the result; an `AIMessage` yields its string content or the
concatenated text of its content blocks; any other message yields its content
only when that is a string; everything else yields the empty string. -/
def extractOutput (resultMessages : List ResultMessage) : String :=
  match resultMessages.getLast? with
  | none => ""
  | some lastMessage =>
    if lastMessage.isAI then
      match lastMessage.content with
      | .str s => s
      | .blocks l => String.join (l.map blockText)
      | .other => ""
    else if lastMessage.hasContent then
      match lastMessage.content with
      | .str s => s
      | _ => ""
    else ""

/-- The main agent's system prompt. -/
def SYSTEM_PROMPT : String :=
  "You are a helpful AI assistant with access to various skills.\nUse the tools available to you to help answer questions and complete tasks.\nAlways be helpful, accurate, and funny in your responses."

/-- `MainAgent` state: the executable agent context (`none` before any
`buildExecutor` call, afterwards the tool names it was bound to), the chat
history, and the accumulated tool set. -/
structure MainAgent where
  agent : Option (List String)
  chatHistory : List Message
  tools : List Tool
deriving DecidableEq

/-- A freshly constructed `MainAgent` (fields at their declared initials;
`agent` is unset until `buildExecutor` runs). -/
def MainAgent.new : MainAgent := ⟨none, [], []⟩

/-- `buildExecutor(newTools?)`: when `newTools` is present and non-empty,
append to the current tool set those incoming tools whose names do not occur
among the current tool names (`duplicateToolsName` is the name intersection,
computed against the current set only); in every case re-create the agent
context bound to the resulting tool set. -/
def MainAgent.buildExecutor (a : MainAgent) (newTools : Option (List Tool)) :
    MainAgent :=
  let tools :=
    match newTools with
    | none => a.tools
    | some nt =>
      if nt.length = 0 then a.tools
      else
        let newToolsName := nt.map Tool.name
        let existingToolsName := a.tools.map Tool.name
        let duplicateToolsName :=
          newToolsName.filter (fun name => decide (name ∈ existingToolsName))
        a.tools ++ nt.filter (fun tool => decide (tool.name ∉ duplicateToolsName))
  { a with tools := tools, agent := some (tools.map Tool.name) }

/-- `MainAgent.initialize()` (renamed `initMain` here): reset the tool set to
empty and build the zero-tool executor. -/
def MainAgent.initMain (a : MainAgent) : MainAgent :=
  MainAgent.buildExecutor { a with tools := [] } (some [])

/-- The message list `MainAgent.run` sends to the executable agent:
system prompt, prior history, then the new user message. -/
def MainAgent.mkMessages (a : MainAgent) (input : String) : List Message :=
  ⟨.system, SYSTEM_PROMPT⟩ :: (a.chatHistory ++ [⟨.user, input⟩])

/-- `MainAgent.run(input)`: throws when no executor was ever built; otherwise
invokes the external agent (`invoke` parameter; its result's `messages` field
may be absent, defaulted to `[]` by `result.messages || []`), extracts the
output text, and only then appends the user message and the assistant output
to the chat history.  Returns (result-or-error, updated agent state); a
throwing invocation leaves the state untouched. -/
def MainAgent.run (a : MainAgent)
    (invoke : List Message → Except String (Option (List ResultMessage)))
    (input : String) : Except String String × MainAgent :=
  match a.agent with
  | none => (.error "Agent not initialized. Call initialize() first.", a)
  | some _ =>
    match invoke (a.mkMessages input) with
    | .error e => (.error e, a)
    | .ok result =>
      let resultMessages := result.getD []
      let output := extractOutput resultMessages
      (.ok output,
        { a with
            chatHistory :=
              a.chatHistory ++ [⟨.user, input⟩, ⟨.assistant, output⟩] })

/-- `MainAgent.clearHistory()`: empties the chat history only. -/
def MainAgent.clearHistory (a : MainAgent) : MainAgent :=
  { a with chatHistory := [] }

/-- A decoded JSON value.  Numbers keep their source lexeme: the router logic
only ever tests them for JS truthiness, never for numeric value. -/
inductive Js where
  | null
  | bool (b : Bool)
  | num (raw : String)
  | str (s : String)
  | arr (l : List Js)
  | obj (members : List (String × Js))

/-- Whitespace accepted by JSON between tokens. -/
def isJsonWs (c : Char) : Bool :=
  c = ' ' || c = '\t' || c = '\n' || c = '\r'

/-- Drop leading JSON whitespace. -/
def skipWs (cs : List Char) : List Char :=
  cs.dropWhile isJsonWs

/-- Hexadecimal digit value. -/
def hexVal (c : Char) : Option Nat :=
  if '0' ≤ c ∧ c ≤ '9' then some (c.toNat - '0'.toNat)
  else if 'a' ≤ c ∧ c ≤ 'f' then some (c.toNat - 'a'.toNat + 10)
  else if 'A' ≤ c ∧ c ≤ 'F' then some (c.toNat - 'A'.toNat + 10)
  else none

/-- JSON string body (after the opening quote), fuel-bounded: returns the
decoded string and the input after the closing quote.  Escapes follow the
JSON grammar; raw control characters are rejected. -/
def parseJStr : Nat → List Char → Option (String × List Char)
  | 0, _ => none
  | _ + 1, [] => none
  | fuel + 1, c :: cs =>
    if c = '\"' then some ("", cs)
    else if c = '\\' then
      match cs with
      | [] => none
      | e :: cs' =>
        let cont := fun (ch : Char) (rest : List Char) =>
          (parseJStr fuel rest).map (fun p => (String.mk (ch :: p.1.toList), p.2))
        if e = '\"' then cont '\"' cs'
        else if e = '\\' then cont '\\' cs'
        else if e = '/' then cont '/' cs'
        else if e = 'b' then cont '\x08' cs'
        else if e = 'f' then cont '\x0c' cs'
        else if e = 'n' then cont '\n' cs'
        else if e = 'r' then cont '\x0d' cs'
        else if e = 't' then cont '\t' cs'
        else if e = 'u' then
          match cs' with
          | h1 :: h2 :: h3 :: h4 :: cs'' =>
            match hexVal h1, hexVal h2, hexVal h3, hexVal h4 with
            | some a, some b, some c2, some d =>
              cont (Char.ofNat (((a * 16 + b) * 16 + c2) * 16 + d)) cs''
            | _, _, _, _ => none
          | _ => none
        else none
    else if c.toNat < 0x20 then none
    else (parseJStr fuel cs).map (fun p => (String.mk (c :: p.1.toList), p.2))

/-- JSON number, per the JSON grammar
`-? (0 | [1-9][0-9]*) (. [0-9]+)? ([eE][+-]?[0-9]+)?`;
returns the lexeme and the rest of the input. -/
def parseJNum (cs0 : List Char) : Option (String × List Char) :=
  let (sgn, cs1) :=
    match cs0 with
    | '-' :: rest => (['-'], rest)
    | _ => (([] : List Char), cs0)
  let ds := cs1.takeWhile Char.isDigit
  let cs2 := cs1.dropWhile Char.isDigit
  if ds.length = 0 then none
  else if 1 < ds.length ∧ ds.headI = '0' then none
  else
    let fracRes : Option (List Char × List Char) :=
      match cs2 with
      | '.' :: rest =>
        let fd := rest.takeWhile Char.isDigit
        if fd.length = 0 then none
        else some ('.' :: fd, rest.dropWhile Char.isDigit)
      | _ => some ([], cs2)
    match fracRes with
    | none => none
    | some (frac, cs3) =>
      let expRes : Option (List Char × List Char) :=
        match cs3 with
        | e :: rest =>
          if e = 'e' ∨ e = 'E' then
            let (esgn, rest2) :=
              match rest with
              | '+' :: r => (['+'], r)
              | '-' :: r => (['-'], r)
              | _ => (([] : List Char), rest)
            let ed := rest2.takeWhile Char.isDigit
            if ed.length = 0 then none
            else some (e :: (esgn ++ ed), rest2.dropWhile Char.isDigit)
          else some ([], cs3)
        | [] => some ([], cs3)
      match expRes with
      | none => none
      | some (ex, cs4) => some (String.mk (sgn ++ ds ++ frac ++ ex), cs4)

/-- Literal keyword: consume `lit` or fail. -/
def dropLit (lit : List Char) (cs : List Char) : Option (List Char) :=
  if cs.take lit.length = lit then some (cs.drop lit.length) else none

mutual

/-- JSON value, fuel-bounded recursive-descent decoding; returns the value and
the remaining input. -/
def parseJVal : Nat → List Char → Option (Js × List Char)
  | 0, _ => none
  | fuel + 1, cs0 =>
    match skipWs cs0 with
    | [] => none
    | c :: rest =>
      if c = '\"' then
        match parseJStr (rest.length + 1) rest with
        | some (s, r) => some (.str s, r)
        | none => none
      else if c = '\x7b' then
        match skipWs rest with
        | '\x7d' :: r => some (.obj [], r)
        | cs1 => parseJMembers fuel cs1 []
      else if c = '[' then
        match skipWs rest with
        | ']' :: r => some (.arr [], r)
        | cs1 => parseJElems fuel cs1 []
      else if c = 't' then (dropLit ['r', 'u', 'e'] rest).map (fun r => (.bool true, r))
      else if c = 'f' then (dropLit ['a', 'l', 's', 'e'] rest).map (fun r => (.bool false, r))
      else if c = 'n' then (dropLit ['u', 'l', 'l'] rest).map (fun r => (.null, r))
      else
        match parseJNum (c :: rest) with
        | some (s, r) => some (.num s, r)
        | none => none

/-- Members of a JSON object after its `\x7b`, fuel-bounded; `acc` carries the
members decoded so far (duplicate keys are kept; lookup takes the last). -/
def parseJMembers : Nat → List Char → List (String × Js) →
    Option (Js × List Char)
  | 0, _, _ => none
  | fuel + 1, cs, acc =>
    match skipWs cs with
    | '\"' :: rest =>
      match parseJStr (rest.length + 1) rest with
      | some (k, r1) =>
        match skipWs r1 with
        | ':' :: r2 =>
          match parseJVal fuel r2 with
          | some (v, r3) =>
            match skipWs r3 with
            | ',' :: r4 => parseJMembers fuel r4 (acc ++ [(k, v)])
            | '\x7d' :: r4 => some (.obj (acc ++ [(k, v)]), r4)
            | _ => none
          | none => none
        | _ => none
      | none => none
    | _ => none

/-- Elements of a JSON array after its `[`, fuel-bounded. -/
def parseJElems : Nat → List Char → List Js → Option (Js × List Char)
  | 0, _, _ => none
  | fuel + 1, cs, acc =>
    match parseJVal fuel cs with
    | some (v, r1) =>
      match skipWs r1 with
      | ',' :: r2 => parseJElems fuel r2 (acc ++ [v])
      | ']' :: r2 => some (.arr (acc ++ [v]), r2)
      | _ => none
    | none => none

end

/-- `JSON.parse(s)`: decode one JSON value and require only whitespace after
it; `none` models a thrown `SyntaxError`.  The fuel `s.length + 1` suffices
because every recursive descent consumes at least one input character. -/
def jsonParse (s : String) : Option Js :=
  match parseJVal (s.toList.length + 1) s.toList with
  | some (v, rest) => if skipWs rest = [] then some v else none
  | none => none

/-- Whether a JSON number lexeme denotes zero: its mantissa (everything before
any exponent marker) has no nonzero digit. -/
def numIsZero (raw : String) : Bool :=
  (raw.toList.takeWhile (fun c => c ≠ 'e' ∧ c ≠ 'E')).all
    (fun c => c = '0' ∨ c = '.' ∨ c = '-')

/-- JS truthiness of a decoded JSON value (`null`, `false`, zero and the
empty string are falsy; arrays and objects are always truthy). -/
def jsTruthy : Js → Bool
  | .null => false
  | .bool b => b
  | .num raw => !numIsZero raw
  | .str s => s ≠ ""
  | .arr _ => true
  | .obj _ => true

/-- JS property access `v.k` on a decoded JSON value: only objects have data
properties; with duplicate keys `JSON.parse` keeps the last one. -/
def jsField : Js → String → Option Js
  | .obj members, k => (members.reverse.find? (fun p => p.1 = k)).map Prod.snd
  | _, _ => none

/-- `v.k || d`: the field's value when present and truthy, otherwise `d`. -/
def jsFieldOr (v : Js) (k : String) (d : Js) : Js :=
  match jsField v k with
  | some j => if jsTruthy j then j else d
  | none => d

/-- The first match of the regular expression `/\x7b[\s\S]*\x7d/` in
`content`: greedy, so it spans from the first opening brace to the last
closing brace of the whole text, provided that closing brace comes after the
opening one; otherwise there is no match. -/
def jsonMatch (content : String) : Option String :=
  match content.toList.findIdx? (fun c => c = '\x7b'),
        content.toList.reverse.findIdx? (fun c => c = '\x7d') with
  | some i, some ri =>
    if i < content.toList.length - 1 - ri then
      some (String.mk ((content.toList.drop i).take
        ((content.toList.length - 1 - ri) - i + 1)))
    else none
  | _, _ => none

/-- The value the router returns: the `skills` and `reasoning` properties of
whatever JSON value was decoded (the source casts, it does not validate, so
both components are arbitrary JSON values). -/
structure RouterJs where
  skills : Js
  reasoning : Js

/-- `ToolAgent.extractResponse(content)`: no JSON-shaped substring gives the
`No JSON response` fallback; otherwise `JSON.parse` the match (a thrown
`SyntaxError` is modelled by `.error`) and read `skills` (defaulting to the
empty array) and `reasoning` (defaulting to `"n/a"`). -/
def ToolAgent.extractResponse (content : String) : Except String RouterJs :=
  match jsonMatch content with
  | none => .ok ⟨.arr [], .str "No JSON response"⟩
  | some m =>
    match jsonParse m with
    | none => .error "SyntaxError: Unexpected token in JSON"
    | some parsed =>
      .ok ⟨jsFieldOr parsed "skills" (.arr []),
           jsFieldOr parsed "reasoning" (.str "n/a")⟩

/-- `ToolAgent.run(input)`: the whole body sits in a `try`; a failing LM call
(`lmResponse = .error _`) or a throwing `extractResponse` is absorbed into
the `Error during routing` fallback.  The LM call is the external
collaborator, passed as its outcome. -/
def ToolAgent.run (lmResponse : Except String String) : RouterJs :=
  match lmResponse with
  | .error _ => ⟨.arr [], .str "Error during routing"⟩
  | .ok content =>
    match ToolAgent.extractResponse content with
    | .ok r => r
    | .error _ => ⟨.arr [], .str "Error during routing"⟩

/-- The `ToolAgentResult` interface (`skills: string[]; reasoning: string`),
the type under which the orchestrator consumes the router's answer. -/
structure ToolAgentResult where
  skills : List String
  reasoning : String
deriving DecidableEq

/-- The built-in `CalculatorSkill`. -/
def CalculatorSkill : Skill :=
  { metadata :=
      { name := "calculator"
        description := "Performs mathematical calculations including basic arithmetic, percentages, and expressions" }
    tools :=
      [⟨"calculate", "Evaluate a mathematical expression. Supports +, -, *, /, ** (power), parentheses, and common math functions."⟩,
       ⟨"percentage", "Calculate percentages: what is X% of Y, or what percentage is X of Y"⟩] }

/-- The built-in `WeatherSkill`. -/
def WeatherSkill : Skill :=
  { metadata :=
      { name := "weather"
        description := "Get current weather conditions and forecasts for any location" }
    tools :=
      [⟨"get_weather", "Get current weather conditions for a specific location"⟩,
       ⟨"get_forecast", "Get weather forecast for the next few days"⟩] }

/-- The built-in `WebSearchSkill`. -/
def WebSearchSkill : Skill :=
  { metadata :=
      { name := "web-search"
        description := "Search the web for information, articles, and documentation" }
    tools :=
      [⟨"web_search", "Search the web for information on any topic"⟩,
       ⟨"fetch_url", "Fetch and extract text content from a URL"⟩] }

/-- The built-in `DateTimeSkill`. -/
def DateTimeSkill : Skill :=
  { metadata :=
      { name := "datetime"
        description := "Get current date/time, format dates, and calculate date differences" }
    tools :=
      [⟨"get_current_time", "Get the current date and time"⟩,
       ⟨"format_date", "Format a date string into a different format"⟩,
       ⟨"date_diff", "Calculate the difference between two dates"⟩] }

/-- `Orchestrator` state: presence of the two agents (`toolAgent` carries no
state of its own beyond the shared registry), the running tool accumulator,
and the registry. -/
structure Orchestrator where
  toolAgent : Bool
  chatAgent : Option MainAgent
  tools : List Tool
  registry : SkillsRegistry
deriving DecidableEq

/-- The `Orchestrator` constructor: a fresh registry with the four built-in
skills registered, both agent fields unset. -/
def Orchestrator.new : Orchestrator :=
  { toolAgent := false
    chatAgent := none
    tools := []
    registry :=
      SkillsRegistry.new.registerAll
        [CalculatorSkill, WeatherSkill, WebSearchSkill, DateTimeSkill] }

/-- `Orchestrator.initialize()` (renamed `initOrch` here): run
`registry.initializeAll()`, fail when no skill is registered, then construct
the router agent and the main agent (the latter via its `initialize`). -/
def Orchestrator.initOrch (o : Orchestrator) : Except String Orchestrator :=
  match o.registry.initializeAll with
  | .error e => .error e
  | .ok r' =>
    if r'.getNames.length = 0 then .error "No skills registered."
    else
      .ok { o with
              registry := r'
              toolAgent := true
              chatAgent := some MainAgent.new.initMain }

/-- `Orchestrator.loadSkillTools(skillName)`: delegate to the registry; on a
non-null result push the returned tools onto the accumulator. -/
def Orchestrator.loadSkillTools (o : Orchestrator) (skillName : String) :
    Bool × Orchestrator :=
  match o.registry.loadSkill skillName with
  | (none, r') => (false, { o with registry := r' })
  | (some ts, r') => (true, { o with registry := r', tools := o.tools ++ ts })

/-- `Orchestrator.handleToolsLoading(toolAgentResponse)`: nothing to do when
the skill list is empty; otherwise try to load each requested skill in order,
reporting whether any tools were added. -/
def Orchestrator.handleToolsLoading (o : Orchestrator)
    (toolAgentResponse : ToolAgentResult) : Bool × Orchestrator :=
  if toolAgentResponse.skills.length = 0 then (false, o)
  else
    toolAgentResponse.skills.foldl
      (fun st skillName =>
        let r := st.2.loadSkillTools skillName
        (st.1 || r.1, r.2))
      (false, o)

/-- `Orchestrator.run(input)`: NotInitialized guard, then the two-phase turn:
handle the router's decision (the router's LM interaction itself is modelled
by `ToolAgent.run`; its typed result is a parameter here), rebuild the main
agent's executor on the whole accumulator when tools were added, and execute
the conversational turn. -/
def Orchestrator.run (o : Orchestrator) (toolAgentResponse : ToolAgentResult)
    (invoke : List Message → Except String (Option (List ResultMessage)))
    (input : String) : Except String String × Orchestrator :=
  match o.toolAgent, o.chatAgent with
  | true, some ca =>
    let st := o.handleToolsLoading toolAgentResponse
    let ca1 := if st.1 then ca.buildExecutor (some st.2.tools) else ca
    let res := ca1.run invoke input
    (res.1, { st.2 with chatAgent := some res.2 })
  | _, _ => (.error "Orchestrator not initialized. Call initialize() first.", o)

/-- `Orchestrator.getLoadedSkills()`. -/
def Orchestrator.getLoadedSkills (o : Orchestrator) : List String :=
  o.registry.getLoadedSkillNames

/-- `Orchestrator.clearHistory()`: a no-op when `chatAgent` is unset;
otherwise clear the main agent's history, reset the accumulator, rebuild the
executor with an empty new-tool list, and reset the registry's loaded set. -/
def Orchestrator.clearHistory (o : Orchestrator) : Orchestrator :=
  match o.chatAgent with
  | none => o
  | some ca =>
    { o with
        chatAgent := some (ca.clearHistory.buildExecutor (some []))
        tools := []
        registry := o.registry.resetLoadedSkills }

/-- The registry invariant of the spec: `initialized` and `loadedThisSession`
only contain registered names. -/
def SkillsRegistry.WF (r : SkillsRegistry) : Prop :=
  (∀ n ∈ r.initialized, n ∈ r.getNames) ∧ (∀ n ∈ r.loadedSkills, n ∈ r.getNames)

/-- Statement abbreviation: a content value from which the `AIMessage` branch
of the output extraction finds no text fragment. -/
def contentNoText : MsgContent → Bool
  | .str _ => false
  | .blocks l => l.all (fun b => match b with | .other => true | _ => false)
  | .other => true

/-- Statement abbreviation: a final result message from which the output
extraction produces the empty string: an AI message without text fragments,
or a non-AI message whose content is not a present string. -/
def msgNoText (m : ResultMessage) : Bool :=
  if m.isAI then contentNoText m.content
  else
    match m.content with
    | .str _ => !m.hasContent
    | _ => true

/-- Statement abbreviation: the extraction input has no text to find (no
final message, or a final message satisfying `msgNoText`). -/
def noTextExtract (msgs : List ResultMessage) : Bool :=
  match msgs.getLast? with
  | none => true
  | some m => msgNoText m

/-- A main agent directly after `initialize()`: empty history, empty tool
set, zero-tool executor built.  Concrete input for several theorems below. -/
def agentZero : MainAgent := MainAgent.new.initMain

/-- Two incoming tools that share a name: concrete input exercising the merge
when the incoming list itself repeats a name. -/
def dupTools : List Tool := [⟨"alpha", "first variant"⟩, ⟨"alpha", "second variant"⟩]

/-- A result message that is not an `AIMessage` but carries string content. -/
def nonAIStringMsg : ResultMessage := ⟨false, true, .str "hello"⟩

/-- The orchestrator after `initialize()` (which cannot fail on the four
built-in skills). -/
def oInit : Orchestrator :=
  (Orchestrator.new.initOrch).toOption.getD Orchestrator.new

/-- A main-turn LM collaborator answering with an empty message list. -/
def demoInvoke : List Message → Except String (Option (List ResultMessage)) :=
  fun _ => .ok (some [])

/-- The orchestrator after one full turn in which the router requested the
weather skill: its main agent now holds the weather tools. -/
def oTurn : Orchestrator :=
  (oInit.run ⟨["weather"], "needs weather"⟩ demoInvoke "weather in Paris").2

/-- A small initialized orchestrator state used as a concrete witness input. -/
def oW : Orchestrator :=
  { toolAgent := true
    chatAgent := some agentZero
    tools := []
    registry := SkillsRegistry.new }

/-! ## Theorems -/

lemma mem_setAdd {s : List String} {x y : String} :
    x ∈ setAdd s y ↔ x ∈ s ∨ x = y := by
  unfold setAdd
  split
  · next h =>
    constructor
    · exact Or.inl
    · rintro (hx | rfl)
      · exact hx
      · exact h
  · simp

lemma get_mem_getNames {r : SkillsRegistry} {n : String} {sk : Skill}
    (h : r.get n = some sk) : n ∈ r.getNames := by
  unfold SkillsRegistry.get mapGet at h
  cases hf : r.skills.find? (fun p => p.1 = n) with
  | none => rw [hf] at h; simp at h
  | some p =>
    have hp : p.1 = n := by simpa using List.find?_some hf
    have hm : p ∈ r.skills := List.mem_of_find?_eq_some hf
    exact hp ▸ List.mem_map.2 ⟨p, hm, rfl⟩

/-- C3: `loadSkill(name)` returns absent exactly when the name is not
registered or already a member of the session's loaded set; on success it
appends the name to the loaded set and returns the skill's full tool
sequence; the second of two consecutive `loadSkill(name)` calls always
returns absent and leaves the loaded set's size unchanged, so a non-absent
result appears at most once, and exactly once when the name is registered
and not yet loaded. -/
theorem loadSkill_consecutive (r : SkillsRegistry) (name : String) :
    ((r.loadSkill name).1 = none ↔ r.get name = none ∨ name ∈ r.loadedSkills)
    ∧ (∀ sk, r.get name = some sk → name ∉ r.loadedSkills →
        (r.loadSkill name).1 = some sk.tools ∧
        (r.loadSkill name).2.loadedSkills = r.loadedSkills ++ [name])
    ∧ ((r.loadSkill name).2.loadSkill name).1 = none
    ∧ ((r.loadSkill name).2.loadSkill name).2.loadedSkills.length
        = (r.loadSkill name).2.loadedSkills.length := by
  cases h : r.get name with
  | none =>
    refine ⟨by simp [SkillsRegistry.loadSkill, h], ?_, ?_, ?_⟩
    · intro sk hsk; exact absurd hsk (by simp)
    · simp [SkillsRegistry.loadSkill, h]
    · simp [SkillsRegistry.loadSkill, h]
  | some sk =>
    by_cases hl : name ∈ r.loadedSkills
    · refine ⟨by simp [SkillsRegistry.loadSkill, h, hl], ?_, ?_, ?_⟩
      · intro sk' _ hl'; exact absurd hl hl'
      · simp [SkillsRegistry.loadSkill, h, hl]
      · simp [SkillsRegistry.loadSkill, h, hl]
    · have hget2 :
          SkillsRegistry.get
            { r with loadedSkills := setAdd r.loadedSkills name } name
            = some sk := h
      refine ⟨by simp [SkillsRegistry.loadSkill, h, hl], ?_, ?_, ?_⟩
      · intro sk' hsk' _
        cases hsk'
        simp [SkillsRegistry.loadSkill, h, hl, setAdd]
      · simp [SkillsRegistry.loadSkill, h, hl, hget2, mem_setAdd]
      · simp [SkillsRegistry.loadSkill, h, hl, hget2, mem_setAdd]

/-- C9: `buildExecutor` reconstructs the executable agent context, bound to
the current tool names, on every call; when `newTools` is absent or the empty
list the stored tool set is left unchanged (the merge step is skipped). -/
theorem buildExecutor_always_rebuilds (a : MainAgent) :
    (∀ nt, (a.buildExecutor nt).agent
        = some ((a.buildExecutor nt).tools.map Tool.name))
    ∧ (a.buildExecutor none).tools = a.tools
    ∧ (a.buildExecutor (some [])).tools = a.tools := by
  refine ⟨fun nt => ?_, ?_, ?_⟩
  · cases nt <;> simp [MainAgent.buildExecutor]
  · simp [MainAgent.buildExecutor]
  · simp [MainAgent.buildExecutor]

/-- C5: router failure is absorbed locally: a failing LM call, a response
without a JSON-shaped substring, and a matched substring that fails to decode
each yield a result with empty `skills` and a diagnostic `reasoning`, never
an error. -/
theorem toolAgent_run_absorbs_failures :
    (∀ e, ToolAgent.run (.error e) = ⟨.arr [], .str "Error during routing"⟩)
    ∧ (∀ content, jsonMatch content = none →
        ToolAgent.run (.ok content) = ⟨.arr [], .str "No JSON response"⟩)
    ∧ (∀ content m, jsonMatch content = some m → jsonParse m = none →
        ToolAgent.run (.ok content)
          = ⟨.arr [], .str "Error during routing"⟩) := by
  refine ⟨fun e => rfl, fun content h => ?_, fun content m h1 h2 => ?_⟩
  · simp [ToolAgent.run, ToolAgent.extractResponse, h]
  · simp [ToolAgent.run, ToolAgent.extractResponse, h1, h2]

lemma buildExecutor_tools_eq (a : MainAgent) (nt : List Tool) :
    (a.buildExecutor (some nt)).tools
      = a.tools
        ++ nt.filter (fun t => decide (t.name ∉ a.tools.map Tool.name)) := by
  cases nt with
  | nil => simp [MainAgent.buildExecutor]
  | cons t0 ts =>
    simp only [MainAgent.buildExecutor, List.length_cons]
    rw [if_neg (by omega)]
    congr 1
    apply List.filter_congr
    intro t ht
    simp only [decide_eq_decide]
    constructor
    · intro hnd hmem
      exact hnd (List.mem_filter.2 ⟨List.mem_map.2 ⟨t, ht, rfl⟩, by simpa using hmem⟩)
    · intro hnmem hd
      exact hnmem (by simpa using (List.mem_filter.1 hd).2)

lemma mem_names_buildExecutor (a : MainAgent) (nt : List Tool) (t : Tool)
    (ht : t ∈ nt) :
    t.name ∈ (a.buildExecutor (some nt)).tools.map Tool.name := by
  rw [buildExecutor_tools_eq, List.map_append, List.mem_append]
  by_cases hmem : t.name ∈ a.tools.map Tool.name
  · exact Or.inl hmem
  · exact Or.inr (List.mem_map.2
      ⟨t, List.mem_filter.2 ⟨ht, by simpa using hmem⟩, rfl⟩)

/-- C2 counterexample: the duplicate check compares incoming names only
against the existing set, so an incoming list that repeats a name yields a
tool set in which that name occurs twice. -/
theorem buildExecutor_dup_incoming_cex :
    ((agentZero.buildExecutor (some dupTools)).tools.map Tool.name
        = ["alpha", "alpha"])
    ∧ ¬ ((agentZero.buildExecutor (some dupTools)).tools.map Tool.name).Nodup := by
  decide

/-- C2 (amended): provided the current tool set and the incoming list each
have pairwise-distinct names, `buildExecutor` appends exactly the incoming
tools whose names are not already present (first-seen-wins), the result has
no duplicate names, the previous tool set is preserved as a prefix, and
re-applying `buildExecutor` with the same list leaves the tool set
unchanged (the idempotence needs no hypothesis). -/
theorem buildExecutor_merge_amended (a : MainAgent) (nt : List Tool)
    (h1 : (a.tools.map Tool.name).Nodup) (h2 : (nt.map Tool.name).Nodup) :
    (a.buildExecutor (some nt)).tools
      = a.tools
        ++ nt.filter (fun t => decide (t.name ∉ a.tools.map Tool.name))
    ∧ ((a.buildExecutor (some nt)).tools.map Tool.name).Nodup
    ∧ a.tools <+: (a.buildExecutor (some nt)).tools
    ∧ ((a.buildExecutor (some nt)).buildExecutor (some nt)).tools
        = (a.buildExecutor (some nt)).tools := by
  refine ⟨buildExecutor_tools_eq a nt, ?_, ?_, ?_⟩
  · rw [buildExecutor_tools_eq, List.map_append]
    refine List.Nodup.append h1 (((List.filter_sublist nt).map Tool.name).nodup h2) ?_
    intro x hx1 hx2
    obtain ⟨t, htf, rfl⟩ := List.mem_map.1 hx2
    have := (List.mem_filter.1 htf).2
    simp only [decide_eq_true_eq] at this
    exact this hx1
  · rw [buildExecutor_tools_eq]; exact List.prefix_append _ _
  · rw [buildExecutor_tools_eq (a.buildExecutor (some nt)) nt]
    have hnil :
        nt.filter
          (fun t => decide
            (t.name ∉ (a.buildExecutor (some nt)).tools.map Tool.name)) = [] := by
      rw [List.filter_eq_nil_iff]
      intro t ht
      simpa using mem_names_buildExecutor a nt t ht
    rw [hnil, List.append_nil]

theorem buildExecutor_merge_amended_witness :
    (agentZero.buildExecutor (some [⟨"beta", "b"⟩])).tools
      = agentZero.tools
        ++ [Tool.mk "beta" "b"].filter
            (fun t => decide (t.name ∉ agentZero.tools.map Tool.name))
    ∧ ((agentZero.buildExecutor (some [⟨"beta", "b"⟩])).tools.map Tool.name).Nodup
    ∧ agentZero.tools <+: (agentZero.buildExecutor (some [⟨"beta", "b"⟩])).tools
    ∧ ((agentZero.buildExecutor (some [⟨"beta", "b"⟩])).buildExecutor
          (some [⟨"beta", "b"⟩])).tools
        = (agentZero.buildExecutor (some [⟨"beta", "b"⟩])).tools :=
  buildExecutor_merge_amended agentZero [⟨"beta", "b"⟩] (by decide) (by decide)

lemma mem_keys_mapSet {m : List (String × Skill)} {k : String} {v : Skill}
    {n : String} (h : n ∈ m.map Prod.fst) :
    n ∈ (mapSet m k v).map Prod.fst := by
  unfold mapSet
  split
  · have hkeys :
        (m.map (fun p => if p.1 = k then (k, v) else p)).map Prod.fst
          = m.map Prod.fst := by
      rw [List.map_map]
      apply List.map_congr_left
      intro p _
      by_cases hp : p.1 = k
      · simp [hp, Function.comp]
      · simp [hp, Function.comp]
    rw [hkeys]; exact h
  · rw [List.map_append]; exact List.mem_append_left _ h

lemma WF_register {r : SkillsRegistry} (h : r.WF) (sk : Skill) :
    (r.register sk).WF := by
  obtain ⟨h1, h2⟩ := h
  exact ⟨fun n hn => mem_keys_mapSet (h1 n hn),
         fun n hn => mem_keys_mapSet (h2 n hn)⟩

lemma WF_registerAll {r : SkillsRegistry} (h : r.WF) (l : List Skill) :
    (r.registerAll l).WF := by
  induction l generalizing r with
  | nil => exact h
  | cons sk l ih => exact ih (WF_register h sk)

lemma WF_loadSkill {r : SkillsRegistry} (h : r.WF) (n : String) :
    ((r.loadSkill n).2).WF := by
  obtain ⟨h1, h2⟩ := h
  unfold SkillsRegistry.loadSkill
  cases hg : r.get n with
  | none => exact ⟨h1, h2⟩
  | some sk =>
    by_cases hl : n ∈ r.loadedSkills
    · simp only [hl, if_true]
      exact ⟨h1, h2⟩
    · simp only [hl, if_false]
      refine ⟨h1, fun x hx => ?_⟩
      rcases mem_setAdd.1 hx with hx' | rfl
      · exact h2 x hx'
      · exact get_mem_getNames hg

lemma WF_initializeSkill {r r' : SkillsRegistry} {n : String} (h : r.WF)
    (hok : r.initializeSkill n = .ok r') : r'.WF := by
  obtain ⟨h1, h2⟩ := h
  unfold SkillsRegistry.initializeSkill at hok
  cases hg : r.get n with
  | none => rw [hg] at hok; exact absurd hok (by simp)
  | some sk =>
    rw [hg] at hok
    by_cases hi : n ∈ r.initialized
    · rw [if_pos hi] at hok
      cases hok
      exact ⟨h1, h2⟩
    · rw [if_neg hi] at hok
      cases hok
      refine ⟨fun x hx => ?_, h2⟩
      rcases mem_setAdd.1 hx with hx' | rfl
      · exact h1 x hx'
      · exact get_mem_getNames hg

lemma WF_foldl_initializeSkill :
    ∀ (names : List String) (r r' : SkillsRegistry), r.WF →
      names.foldlM (fun acc n => acc.initializeSkill n) r = .ok r' → r'.WF := by
  intro names
  induction names with
  | nil =>
    intro r r' h hok
    simp only [List.foldlM_nil] at hok
    cases hok
    exact h
  | cons a l ih =>
    intro r r' h hok
    rw [List.foldlM_cons] at hok
    cases hstep : r.initializeSkill a with
    | error e => rw [hstep] at hok; exact absurd hok (by simp [Bind.bind, Except.bind])
    | ok r1 =>
      rw [hstep] at hok
      exact ih r1 r' (WF_initializeSkill h hstep)
        (by simpa [Bind.bind, Except.bind] using hok)


lemma WF_new : SkillsRegistry.new.WF := by
  constructor <;> intro n hn <;> simp [SkillsRegistry.new] at hn

lemma WF_reset {r : SkillsRegistry} (h : r.WF) : r.resetLoadedSkills.WF := by
  refine ⟨h.1, ?_⟩
  intro n hn
  simp [SkillsRegistry.resetLoadedSkills] at hn

lemma loadSkill_skills_eq (r : SkillsRegistry) (n : String) :
    ((r.loadSkill n).2).skills = r.skills := by
  unfold SkillsRegistry.loadSkill
  cases hg : r.get n with
  | none => rfl
  | some sk =>
    by_cases hl : n ∈ r.loadedSkills
    · simp [hl]
    · simp [hl]

lemma initializeSkill_skills_eq {r r' : SkillsRegistry} {n : String}
    (hok : r.initializeSkill n = .ok r') : r'.skills = r.skills := by
  unfold SkillsRegistry.initializeSkill at hok
  cases hg : r.get n with
  | none => rw [hg] at hok; exact absurd hok (by simp)
  | some sk =>
    rw [hg] at hok
    by_cases hi : n ∈ r.initialized
    · rw [if_pos hi] at hok; cases hok; rfl
    · rw [if_neg hi] at hok; cases hok; rfl

/-- C8: the registry invariant (`initialized` and `loadedThisSession` are
subsets of the registered names) holds in the initial state and is preserved
by every registry operation; moreover no operation removes a registered name:
`register` only grows the key set and the other operations leave the skills
map untouched. -/
theorem registry_invariant :
    SkillsRegistry.new.WF
    ∧ (∀ (r : SkillsRegistry) (sk : Skill), r.WF → (r.register sk).WF)
    ∧ (∀ (r : SkillsRegistry) (l : List Skill), r.WF → (r.registerAll l).WF)
    ∧ (∀ (r : SkillsRegistry) (n : String), r.WF → ((r.loadSkill n).2).WF)
    ∧ (∀ (r : SkillsRegistry) (n : String) (r' : SkillsRegistry),
        r.WF → r.initializeSkill n = .ok r' → r'.WF)
    ∧ (∀ (r r' : SkillsRegistry), r.WF → r.initializeAll = .ok r' → r'.WF)
    ∧ (∀ r : SkillsRegistry, r.WF → r.resetLoadedSkills.WF)
    ∧ (∀ (r : SkillsRegistry) (sk : Skill),
        ∀ n ∈ r.getNames, n ∈ (r.register sk).getNames)
    ∧ (∀ (r : SkillsRegistry) (n : String), ((r.loadSkill n).2).skills = r.skills)
    ∧ (∀ (r : SkillsRegistry) (n : String) (r' : SkillsRegistry),
        r.initializeSkill n = .ok r' → r'.skills = r.skills)
    ∧ (∀ r : SkillsRegistry, r.resetLoadedSkills.skills = r.skills) :=
  ⟨WF_new,
   fun _ sk h => WF_register h sk,
   fun _ l h => WF_registerAll h l,
   fun _ n h => WF_loadSkill h n,
   fun _ _ _ h hok => WF_initializeSkill h hok,
   fun r r' h hok => WF_foldl_initializeSkill r.getNames r r' h hok,
   fun _ h => WF_reset h,
   fun _ _ _ hn => mem_keys_mapSet hn,
   fun r n => loadSkill_skills_eq r n,
   fun _ _ _ hok => initializeSkill_skills_eq hok,
   fun _ => rfl⟩

/-- C6: `MainAgent.run` mutates history atomically with respect to model
failure: on a failing model invocation the whole agent state — in particular
the conversation history — is exactly as before the call, and on success the
user message and the produced assistant text are appended as a pair, after
the invocation has returned, before returning. -/
theorem mainAgent_run_atomic_history (a : MainAgent) (ts : List String)
    (invoke : List Message → Except String (Option (List ResultMessage)))
    (input : String) (h : a.agent = some ts) :
    (∀ e, invoke (a.mkMessages input) = .error e →
        a.run invoke input = (.error e, a))
    ∧ (∀ result, invoke (a.mkMessages input) = .ok result →
        a.run invoke input =
          (.ok (extractOutput (result.getD [])),
           { a with
               chatHistory := a.chatHistory
                 ++ [⟨.user, input⟩,
                     ⟨.assistant, extractOutput (result.getD [])⟩] })) := by
  constructor <;> intro x hx <;> simp [MainAgent.run, h, hx]

theorem mainAgent_run_atomic_history_witness :
    MainAgent.run agentZero (fun _ => .error "LM down") "hi"
      = (.error "LM down", agentZero) :=
  (mainAgent_run_atomic_history agentZero [] (fun _ => .error "LM down") "hi"
      rfl).1 "LM down" rfl

/-- C10 counterexample: when the final result message is not an assistant
message but its `content` is a string, `run` returns that string, not the
empty string. -/
theorem mainAgent_run_nonAI_string_cex :
    MainAgent.run agentZero (fun _ => .ok (some [nonAIStringMsg])) "hi"
      = (.ok "hello",
         { agentZero with
             chatHistory := [⟨.user, "hi"⟩, ⟨.assistant, "hello"⟩] })
    ∧ nonAIStringMsg.isAI = false
    ∧ ("hello" : String) ≠ "" := by
  refine ⟨rfl, rfl, by decide⟩

lemma join_all_empty {l : List String} (h : ∀ s ∈ l, s = "") :
    String.join l = "" := by
  induction l with
  | nil => rfl
  | cons s rest ih =>
    have hs : s = "" := h s (List.mem_cons_self s rest)
    have hrest : String.join rest = "" := ih (fun x hx => h x (List.mem_cons_of_mem s hx))
    show String.join (s :: rest) = ""
    rw [hs]
    simpa [String.join] using hrest

lemma extractOutput_noText {msgs : List ResultMessage}
    (h : noTextExtract msgs = true) : extractOutput msgs = "" := by
  unfold noTextExtract at h
  unfold extractOutput
  cases hlast : msgs.getLast? with
  | none => rfl
  | some m =>
    rw [hlast] at h
    obtain ⟨ai, hcf, c⟩ := m
    cases ai with
    | false =>
      cases c with
      | str s =>
        simp only [msgNoText, Bool.false_eq_true, if_false,
          Bool.not_eq_true'] at h
        simp [h]
      | blocks l => cases hcf <;> simp
      | other => cases hcf <;> simp
    | true =>
      cases c with
      | str s => simp [msgNoText, contentNoText] at h
      | blocks l =>
        simp only [msgNoText, if_true, contentNoText] at h
        simp only [if_true]
        apply join_all_empty
        intro s hs
        obtain ⟨b, hb, rfl⟩ := List.mem_map.1 hs
        have hball := List.all_eq_true.1 h b hb
        cases b with
        | str s' => exact absurd hball (by simp)
        | textObj t => exact absurd hball (by simp)
        | other => rfl
      | other => simp

/-- C10 (amended): every successful `MainAgent.run` call appends exactly two
messages — the user input then the assistant output; when the extraction
finds no text (no final message, a final assistant message whose content
carries no text fragment, or a final non-assistant message whose content is
not a present string), the output is the empty string, returned and appended
as the assistant turn.  (A non-assistant final message whose content IS a
string yields that string — see the counterexample.) -/
theorem mainAgent_run_appends_pair (a : MainAgent) (ts : List String)
    (invoke : List Message → Except String (Option (List ResultMessage)))
    (input : String) (h : a.agent = some ts) :
    (∀ out a', a.run invoke input = (.ok out, a') →
        a'.chatHistory = a.chatHistory ++ [⟨.user, input⟩, ⟨.assistant, out⟩])
    ∧ (∀ msgs, noTextExtract msgs = true → extractOutput msgs = "")
    ∧ (∀ result, invoke (a.mkMessages input) = .ok result →
        noTextExtract (result.getD []) = true →
        a.run invoke input
          = (.ok "",
             { a with
                 chatHistory := a.chatHistory
                   ++ [⟨.user, input⟩, ⟨.assistant, ""⟩] })) := by
  refine ⟨?_, fun msgs hm => extractOutput_noText hm, ?_⟩
  · intro out a' hrun
    rw [MainAgent.run, h] at hrun
    cases hinv : invoke (a.mkMessages input) with
    | error e => rw [hinv] at hrun; exact absurd hrun (by simp)
    | ok result =>
      rw [hinv] at hrun
      simp only [Prod.mk.injEq, Except.ok.injEq] at hrun
      obtain ⟨rfl, rfl⟩ := hrun
      simp
  · intro result hinv hnt
    simp only [MainAgent.run, h, hinv]
    rw [extractOutput_noText hnt]

theorem mainAgent_run_appends_pair_witness :
    MainAgent.run agentZero demoInvoke "hi"
      = (.ok "",
         { agentZero with
             chatHistory := [⟨.user, "hi"⟩, ⟨.assistant, ""⟩] }) := by
  have := (mainAgent_run_appends_pair agentZero [] demoInvoke "hi" rfl).2.2
    (some []) rfl rfl
  simpa [agentZero] using this

/-- C1 counterexample: an initialized orchestrator that has loaded the
weather skill and run a turn; `clearHistory()` empties the history, the
orchestrator's accumulator and the registry's loaded set, but the
Conversational Agent's own tool set still holds the weather tools, because
`buildExecutor([])` skips the merge and leaves `MainAgent.tools` untouched. -/
theorem clearHistory_agent_tools_survive_cex :
    oTurn.clearHistory.getLoadedSkills = []
    ∧ (oTurn.clearHistory.chatAgent.map MainAgent.chatHistory) = some []
    ∧ oTurn.clearHistory.tools = []
    ∧ (oTurn.clearHistory.chatAgent.map (fun a => a.tools.map Tool.name))
        = some ["get_weather", "get_forecast"]
    ∧ some ["get_weather", "get_forecast"] ≠ some ([] : List String) := by
  refine ⟨rfl, rfl, rfl, rfl, by decide⟩

/-- C1 (amended): `clearHistory()` on an orchestrator whose main agent is
present resets the conversation history to length 0, the orchestrator's tool
accumulator to empty and the registry's loaded-skill set to empty (so
`getLoadedSkills()` returns the empty sequence immediately after), and
rebuilds the executor — but the Conversational Agent's own tool set is left
unchanged, since `buildExecutor([])` skips the merge. -/
theorem clearHistory_session_reset_amended (o : Orchestrator) (ca : MainAgent)
    (h : o.chatAgent = some ca) :
    o.clearHistory.getLoadedSkills = []
    ∧ o.clearHistory.tools = []
    ∧ o.clearHistory.chatAgent
        = some { ca with
                   chatHistory := []
                   agent := some (ca.tools.map Tool.name) } := by
  refine ⟨?_, ?_, ?_⟩ <;>
    simp [Orchestrator.clearHistory, h, Orchestrator.getLoadedSkills,
      SkillsRegistry.getLoadedSkillNames, SkillsRegistry.resetLoadedSkills,
      MainAgent.clearHistory, MainAgent.buildExecutor]

theorem clearHistory_session_reset_amended_witness :
    oW.clearHistory.getLoadedSkills = []
    ∧ oW.clearHistory.tools = []
    ∧ oW.clearHistory.chatAgent
        = some { agentZero with
                   chatHistory := []
                   agent := some (agentZero.tools.map Tool.name) } :=
  clearHistory_session_reset_amended oW agentZero rfl

/-- C7 (amended): `run` called before `initialize` fails with the
NotInitialized error and leaves the orchestrator state unchanged;
`clearHistory` called before `initialize`, however, is a silent no-op: it
raises nothing and changes nothing. -/
theorem run_before_init_amended (o : Orchestrator)
    (toolAgentResponse : ToolAgentResult)
    (invoke : List Message → Except String (Option (List ResultMessage)))
    (input : String)
    (h : o.toolAgent = false ∨ o.chatAgent = none) :
    o.run toolAgentResponse invoke input
      = (.error "Orchestrator not initialized. Call initialize() first.", o)
    ∧ (o.chatAgent = none → o.clearHistory = o) := by
  constructor
  · rcases h with h | h
    · cases hca : o.chatAgent <;> simp [Orchestrator.run, h, hca]
    · cases hta : o.toolAgent <;> simp [Orchestrator.run, h, hta]
  · intro hnone
    simp [Orchestrator.clearHistory, hnone]

theorem run_before_init_amended_witness :
    Orchestrator.new.run ⟨[], "r"⟩ demoInvoke "hello"
      = (.error "Orchestrator not initialized. Call initialize() first.",
         Orchestrator.new)
    ∧ (Orchestrator.new.chatAgent = none →
        Orchestrator.new.clearHistory = Orchestrator.new) :=
  run_before_init_amended Orchestrator.new ⟨[], "r"⟩ demoInvoke "hello"
    (Or.inl rfl)

/-- C7 counterexample: on a fresh (never-initialized) orchestrator,
`clearHistory()` does not fail: it silently returns with the state
unchanged (the source guards the whole body behind `if (this.chatAgent)`
and has no throw path). -/
theorem clearHistory_before_init_cex :
    Orchestrator.new.chatAgent = none
    ∧ Orchestrator.new.clearHistory = Orchestrator.new :=
  ⟨rfl, rfl⟩

lemma findIdx?_first {α : Type _} {p : α → Bool} {l : List α} {i : Nat}
    (hlen : i < l.length) (hi : p l[i] = true)
    (hmin : ∀ k, (hk : k < l.length) → k < i → p l[k] = false) :
    l.findIdx? p = some i := by
  rw [List.findIdx?_eq_some_iff_findIdx_eq]
  refine ⟨hlen, ?_⟩
  have hex : List.findIdx p l < l.length :=
    List.findIdx_lt_length_of_exists ⟨l[i], List.getElem_mem hlen, hi⟩
  rcases Nat.lt_trichotomy (List.findIdx p l) i with hlt | heq | hgt
  · have hT := @List.findIdx_getElem _ p l hex
    rw [hmin _ hex hlt] at hT
    exact absurd hT (by simp)
  · exact heq
  · have hF := List.not_of_lt_findIdx hgt
    simp only [hi] at hF
    exact absurd hF (by decide)

lemma findIdx?_reverse_last {p : Char → Bool} {l : List Char} {j : Nat}
    (hlen : j < l.length) (hj : p l[j] = true)
    (hmax : ∀ k, (hk : k < l.length) → j < k → p l[k] = false) :
    l.reverse.findIdx? p = some (l.length - 1 - j) := by
  have hrl : l.length - 1 - j < l.reverse.length := by
    rw [List.length_reverse]; omega
  apply findIdx?_first hrl
  · have hsame : l.reverse[l.length - 1 - j] = l[j] := by
      rw [List.getElem_reverse]
      congr 1
      omega
    rw [hsame]; exact hj
  · intro k hk hklt
    have hkl : k < l.length := by rw [List.length_reverse] at hk; exact hk
    have hsame : l.reverse[k] = l[l.length - 1 - k] := by
      rw [List.getElem_reverse]
    rw [hsame]
    apply hmax
    omega

/-- C4: the router's parse step extracts the substring from the first
opening brace to the last closing brace of the assistant text and decodes it
as JSON, defaulting `skills` to the empty list and `reasoning` to `n/a` when
the field is missing; on the spec's concrete example it yields
`skills = ["weather"]` and `reasoning = "x"`, and any text without an
opening brace yields the empty skill list with reasoning `No JSON response`. -/
theorem router_parse_first_to_last_brace :
    (∀ content : String, (∀ c ∈ content.toList, c ≠ '\x7b') →
        ToolAgent.extractResponse content
          = .ok ⟨.arr [], .str "No JSON response"⟩)
    ∧ (∀ (content : String) (i j : Nat)
        (hilen : i < content.toList.length)
        (hjlen : j < content.toList.length),
        i < j →
        content.toList[i] = '\x7b' →
        (∀ k, (hk : k < content.toList.length) → k < i →
          content.toList[k] ≠ '\x7b') →
        content.toList[j] = '\x7d' →
        (∀ k, (hk : k < content.toList.length) → j < k →
          content.toList[k] ≠ '\x7d') →
        jsonMatch content
          = some (String.mk ((content.toList.drop i).take (j - i + 1))))
    ∧ (∀ (content m : String) (v : Js),
        jsonMatch content = some m → jsonParse m = some v →
        ToolAgent.extractResponse content
          = .ok ⟨jsFieldOr v "skills" (.arr []),
                 jsFieldOr v "reasoning" (.str "n/a")⟩)
    ∧ (∀ (v : Js) (k : String) (d : Js), jsField v k = none → jsFieldOr v k d = d)
    ∧ ToolAgent.extractResponse
        "noise \x7b\"skills\":[\"weather\"],\"reasoning\":\"x\"\x7d  trailing"
        = .ok ⟨.arr [.str "weather"], .str "x"⟩ := by
  refine ⟨?_, ?_, ?_, ?_, ?_⟩
  · intro content h
    have h0 : content.toList.findIdx? (fun c => c = '\x7b') = none := by
      rw [List.findIdx?_eq_none_iff]
      intro x hx
      simp [h x hx]
    unfold ToolAgent.extractResponse jsonMatch
    simp only [h0]
  · intro content i j hilen hjlen hij hi hmin hj hmax
    have h1 : content.toList.findIdx? (fun c => c = '\x7b') = some i := by
      apply findIdx?_first hilen
      · simp only [decide_eq_true_eq]
        exact hi
      · intro k hk hki
        simp only [decide_eq_false_iff_not]
        exact hmin k hk hki
    have h2 : content.toList.reverse.findIdx? (fun c => c = '\x7d')
        = some (content.toList.length - 1 - j) := by
      apply findIdx?_reverse_last hjlen
      · simp only [decide_eq_true_eq]
        exact hj
      · intro k hk hjk
        simp only [decide_eq_false_iff_not]
        exact hmax k hk hjk
    have hjj : content.toList.length - 1 - (content.toList.length - 1 - j)
        = j := by omega
    unfold jsonMatch
    simp only [h1, h2, hjj, if_pos hij]
  · intro content m v h1 h2
    unfold ToolAgent.extractResponse
    simp only [h1, h2]
  · intro v k d h
    unfold jsFieldOr
    simp only [h]
  · rfl
